import Mathlib

/-
Verification of the translating search proxy.

The embedding models the cache and orchestration code of the GET /search
handler: the JS Map based translation cache (cacheGet, cacheSet), the
resolve logic (cache hit, provider call, fallback) and the request handler
(keyword extraction, parameter forwarding, diagnostic headers). JS maps and
query objects are association lists in insertion order; time is an explicit
Nat parameter standing for Date.now(); the translation provider and the
search forwarder are function parameters.
-/

namespace SearchProxy

/-- ASCII lowering of one character, as the JS toLowerCase method acts on
the ASCII range. -/
def jsCharToLower (c : Char) : Char :=
  if 65 ≤ c.toNat ∧ c.toNat ≤ 90 then Char.ofNat (c.toNat + 32) else c

/-- Model of the JS String toLowerCase method. -/
def toLowerCase (s : String) : String := ⟨s.data.map jsCharToLower⟩

/-- Whitespace recognised by the JS String trim method (common subset). -/
def jsIsWhitespace (c : Char) : Bool :=
  c = ' ' ∨ c = '\t' ∨ c = '\n' ∨ c = '\r'

/-- Model of the JS String trim method: drop whitespace at both ends. -/
def jsTrim (s : String) : String :=
  ⟨((s.data.dropWhile jsIsWhitespace).reverse.dropWhile jsIsWhitespace).reverse⟩

/-- Lookup in a JS Map or plain object, modelled as an association list in
insertion order; keys are unique in every map the program builds. -/
def jsMapFind {α : Type} : List (String × α) → String → Option α
  | [], _ => none
  | p :: m, k => if p.1 = k then some p.2 else jsMapFind m k

/-- The JS Map set operation: an existing key keeps its position and gets the
new value, a new key is appended at the end. -/
def jsMapSet {α : Type} : List (String × α) → String → α → List (String × α)
  | [], k, v => [(k, v)]
  | p :: m, k, v => if p.1 = k then (k, v) :: m else p :: jsMapSet m k v

/-- The JS Map delete operation: remove the entry with the given key. -/
def jsMapDelete {α : Type} (m : List (String × α)) (k : String) :
    List (String × α) :=
  m.filter (fun p => p.1 != k)

/-- A translation cache entry: the translated text together with the absolute
expiry timestamp, as stored in translationCache. -/
structure CacheEntry where
  translated : String
  expiresAt : Nat
deriving DecidableEq, Repr

/-- The translationCache Map: normalized key to entry, insertion ordered. -/
abbrev Cache := List (String × CacheEntry)

/-- Embedding of cacheGet: lower the key, look it up, and treat an entry whose
expiresAt lies strictly in the past as absent, deleting it lazily. Returns the
found value together with the possibly updated cache. -/
def cacheGet (cache : Cache) (now : Nat) (original : String) :
    Option String × Cache :=
  let key := toLowerCase original
  match jsMapFind cache key with
  | none => (none, cache)
  | some entry =>
      if entry.expiresAt < now then (none, jsMapDelete cache key)
      else (some entry.translated, cache)

/-- Embedding of cacheSet: lower the key; when the map already holds at least
maxEntries entries, delete the first iterated key; then set the new entry with
expiresAt equal to now plus ttl. -/
def cacheSet (cache : Cache) (maxEntries ttl now : Nat)
    (original translated : String) : Cache :=
  let key := toLowerCase original
  let cache1 :=
    if maxEntries ≤ cache.length then
      match cache.head? with
      | some first => jsMapDelete cache first.1
      | none => cache
    else cache
  jsMapSet cache1 key ⟨translated, now + ttl⟩

/-- A sequence of cacheSet calls, each with its own timestamp, key and
value. -/
def applyPuts (maxEntries ttl : Nat) : Cache → List (Nat × String × String) → Cache
  | c, [] => c
  | c, op :: ops =>
      applyPuts maxEntries ttl (cacheSet c maxEntries ttl op.1 op.2.1 op.2.2) ops

/-- Value of one query parameter as delivered by the HTTP framework: either a
plain string or a non string shape such as an array or object. -/
inductive QueryVal where
  | str (s : String)
  | other
deriving DecidableEq, Repr

/-- The query object req.query and the forwarded parameter object. -/
abbrev Params := List (String × QueryVal)

/-- Result of one call to the translation provider: translated text on
success, or failure standing for a timeout, provider error or malformed
response. -/
inductive ProviderResult where
  | success (translatedText : String)
  | failure
deriving DecidableEq, Repr

/-- The per request translation outcome: the text ultimately used, whether it
came from a live cache entry, and whether the provider was invoked. -/
structure Outcome where
  translatedText : String
  cacheHit : Bool
  attempted : Bool
deriving DecidableEq, Repr

/-- JS truthiness of the cacheGet result: null and the empty string are
falsy. -/
def truthy : Option String → Bool
  | none => false
  | some s => s != ""

/-- The JS expression cached OR fallback: the fallback is used when cached is
null or the empty string. -/
def jsOr : Option String → String → String
  | none, fallback => fallback
  | some s, fallback => if s = "" then fallback else s

/-- Embedding of the orchestration block of the GET /search handler for a
trimmed keyword text: consult the cache, then the provider when a key is
configured, falling back to the original text; the provider result is stored
in the cache on success. Returns the outcome and the updated cache. -/
def resolve (cache : Cache) (translateApiKey : Option String)
    (maxEntries ttl : Nat) (provider : String → ProviderResult) (now : Nat)
    (spanishKeywords : String) : Outcome × Cache :=
  let looked := cacheGet cache now spanishKeywords
  let cached := looked.1
  let cache1 := looked.2
  let portugueseKeywords := jsOr cached spanishKeywords
  let cacheHit := truthy cached
  if truthy cached then
    (⟨portugueseKeywords, cacheHit, false⟩, cache1)
  else
    match translateApiKey with
    | none => (⟨portugueseKeywords, cacheHit, false⟩, cache1)
    | some _ =>
        match provider spanishKeywords with
        | ProviderResult.success t =>
            (⟨t, cacheHit, true⟩, cacheSet cache1 maxEntries ttl now spanishKeywords t)
        | ProviderResult.failure =>
            (⟨portugueseKeywords, cacheHit, true⟩, cache1)

/-- The usable keywords test of the handler: the keywords parameter exists, is
a string, and is not blank after trimming. -/
def hasUsableKeywords (query : Params) : Bool :=
  match jsMapFind query "keywords" with
  | some (QueryVal.str s) => jsTrim s != ""
  | _ => false

/-- State of the handler just before the forwarding call: the forwarded
parameters, the outcome and trimmed keywords when orchestration ran, and the
cache state. -/
structure SearchStep where
  forwardParams : Params
  outcome : Option Outcome
  spanishKeywords : Option String
  cache : Cache
deriving DecidableEq, Repr

/-- Straight line part of the GET /search handler up to the forwarding call:
without usable keywords the keywords field is deleted and no orchestration
runs; otherwise the trimmed keywords are resolved and the result replaces the
keywords field of the forwarded parameters. -/
def searchStep (cache : Cache) (translateApiKey : Option String)
    (maxEntries ttl : Nat) (provider : String → ProviderResult) (now : Nat)
    (query : Params) : SearchStep :=
  match jsMapFind query "keywords" with
  | some (QueryVal.str s) =>
      if jsTrim s = "" then
        ⟨jsMapDelete query "keywords", none, none, cache⟩
      else
        let r := resolve cache translateApiKey maxEntries ttl provider now (jsTrim s)
        ⟨jsMapSet query "keywords" (QueryVal.str r.1.translatedText),
         some r.1, some (jsTrim s), r.2⟩
  | _ => ⟨jsMapDelete query "keywords", none, none, cache⟩

/-- Result of the forwarding call to the upstream search backend. -/
inductive ForwardResult where
  | ok (status : Nat) (body : String)
  | err
deriving DecidableEq, Repr

/-- Response sent to the caller: status, body and response headers. -/
structure Response where
  status : Nat
  body : String
  headers : List (String × String)
deriving DecidableEq, Repr

/-- Fixed body of the generic internal error response. -/
def internalErrorBody : String := "An internal server error occurred."

/-- The four diagnostic headers derived from the outcome. -/
def diagnosticHeaders (o : Outcome) (spanishKeywords : String) :
    List (String × String) :=
  [("X-Translate-Attempted", if o.attempted then "1" else "0"),
   ("X-Translate-Cached", if o.cacheHit then "1" else "0"),
   ("X-Source-Keywords", spanishKeywords),
   ("X-Translated-Keywords", o.translatedText)]

/-- Embedding of the whole GET /search handler: build the forwarded
parameters, call the forwarder, and either relay its status and body
(decorated with the diagnostic headers when orchestration ran) or answer with
the generic 500 error. Returns the response and the final cache state. -/
def handleSearch (cache : Cache) (translateApiKey : Option String)
    (maxEntries ttl : Nat) (provider : String → ProviderResult)
    (forward : Params → ForwardResult) (now : Nat) (query : Params) :
    Response × Cache :=
  let st := searchStep cache translateApiKey maxEntries ttl provider now query
  match forward st.forwardParams with
  | ForwardResult.ok status body =>
      match st.outcome, st.spanishKeywords with
      | some o, some sp => (⟨status, body, diagnosticHeaders o sp⟩, st.cache)
      | _, _ => (⟨status, body, []⟩, st.cache)
  | ForwardResult.err => (⟨500, internalErrorBody, []⟩, st.cache)

/-- Setting a key makes it found with the new value. -/
theorem jsMapFind_set_self {α : Type} (m : List (String × α)) (k : String) (v : α) :
    jsMapFind (jsMapSet m k v) k = some v := by
  induction m with
  | nil => simp [jsMapSet, jsMapFind]
  | cons p m ih =>
      by_cases h : p.1 = k <;> simp [jsMapSet, jsMapFind, h, ih]

/-- Setting one key leaves lookups of every other key unchanged. -/
theorem jsMapFind_set_other {α : Type} (m : List (String × α)) (k k' : String)
    (v : α) (h : k' ≠ k) :
    jsMapFind (jsMapSet m k v) k' = jsMapFind m k' := by
  induction m with
  | nil => simp [jsMapSet, jsMapFind, Ne.symm h]
  | cons p m ih =>
      by_cases hp : p.1 = k
      · subst hp
        simp [jsMapSet, jsMapFind, Ne.symm h]
      · simp [jsMapSet, jsMapFind, hp, ih]

/-- Deleting a key removes it from lookups entirely. -/
theorem jsMapFind_delete_self {α : Type} (m : List (String × α)) (k : String) :
    jsMapFind (jsMapDelete m k) k = none := by
  induction m with
  | nil => simp [jsMapDelete, jsMapFind]
  | cons p m ih =>
      by_cases hp : p.1 = k
      · simpa [jsMapDelete, jsMapFind, hp] using ih
      · simpa [jsMapDelete, jsMapFind, List.filter_cons, hp] using ih

/-- Deleting one key leaves lookups of every other key unchanged. -/
theorem jsMapFind_delete_other {α : Type} (m : List (String × α)) (k k' : String)
    (h : k' ≠ k) :
    jsMapFind (jsMapDelete m k) k' = jsMapFind m k' := by
  induction m with
  | nil => simp [jsMapDelete]
  | cons p m ih =>
      by_cases hp : p.1 = k
      · subst hp
        simpa [jsMapDelete, jsMapFind, List.filter_cons, Ne.symm h] using ih
      · by_cases hp' : p.1 = k'
        · simp [jsMapDelete, jsMapFind, List.filter_cons, hp, hp', h]
        · simpa [jsMapDelete, jsMapFind, List.filter_cons, hp, hp'] using ih

/-- A lookup fails exactly when no entry carries the key. -/
theorem jsMapFind_eq_none_iff {α : Type} (m : List (String × α)) (k : String) :
    jsMapFind m k = none ↔ ∀ p ∈ m, p.1 ≠ k := by
  induction m with
  | nil => simp [jsMapFind]
  | cons p m ih =>
      by_cases hp : p.1 = k <;> simp [jsMapFind, hp, ih]

/-- Lookup over an appended map tries the left part first. -/
theorem jsMapFind_append {α : Type} (m1 m2 : List (String × α)) (k : String) :
    jsMapFind (m1 ++ m2) k = (jsMapFind m1 k).or (jsMapFind m2 k) := by
  induction m1 with
  | nil => simp [jsMapFind]
  | cons p m ih =>
      by_cases hp : p.1 = k <;> simp [jsMapFind, hp, ih]

/-- With pairwise distinct keys, a member entry is what its key looks up. -/
theorem jsMapFind_of_mem {α : Type} (m : List (String × α)) (p : String × α)
    (hmem : p ∈ m) (hpw : m.Pairwise (fun a b => a.1 ≠ b.1)) :
    jsMapFind m p.1 = some p.2 := by
  induction m with
  | nil => cases hmem
  | cons q m ih =>
      rcases List.mem_cons.mp hmem with h | h
      · subst h
        simp [jsMapFind]
      · have hq : q.1 ≠ p.1 := (List.pairwise_cons.mp hpw).1 p h
        simp only [jsMapFind, hq, if_false]
        exact ih h (List.pairwise_cons.mp hpw).2

/-- Setting a key that is absent appends the new entry at the end. -/
theorem jsMapSet_of_absent {α : Type} (m : List (String × α)) (k : String)
    (v : α) (h : jsMapFind m k = none) :
    jsMapSet m k v = m ++ [(k, v)] := by
  induction m with
  | nil => simp [jsMapSet]
  | cons p m ih =>
      have hp : p.1 ≠ k := ((jsMapFind_eq_none_iff _ _).mp h) p (by simp)
      have hm : jsMapFind m k = none := by
        rw [jsMapFind_eq_none_iff]
        intro q hq
        exact ((jsMapFind_eq_none_iff _ _).mp h) q (by simp [hq])
      simp [jsMapSet, hp, ih hm]

/-- A delete never grows the map, and deleting the head key shrinks it. -/
theorem jsMapDelete_length_le {α : Type} (m : List (String × α)) (k : String) :
    (jsMapDelete m k).length ≤ m.length :=
  List.length_filter_le _ _

/-- Deleting the key of the head entry drops the head. -/
theorem jsMapDelete_cons_self {α : Type} (p : String × α) (m : List (String × α)) :
    jsMapDelete (p :: m) p.1 = jsMapDelete m p.1 := by
  simp [jsMapDelete, List.filter_cons]

/-- Deleting a key that is absent leaves the map unchanged. -/
theorem jsMapDelete_of_absent {α : Type} (m : List (String × α)) (k : String)
    (h : ∀ q ∈ m, q.1 ≠ k) : jsMapDelete m k = m := by
  refine List.filter_eq_self.mpr ?_
  intro q hq
  simp [h q hq]

/-- Setting a key grows the map by at most one entry. -/
theorem jsMapSet_length_le {α : Type} (m : List (String × α)) (k : String) (v : α) :
    (jsMapSet m k v).length ≤ m.length + 1 := by
  induction m with
  | nil => simp [jsMapSet]
  | cons p m ih =>
      by_cases h : p.1 = k
      · simp [jsMapSet, h]
      · simp [jsMapSet, h]
        omega

/-- Setting a key that is already present keeps the map size unchanged. -/
theorem jsMapSet_length_of_found {α : Type} (m : List (String × α)) (k : String)
    (v w : α) (h : jsMapFind m k = some w) :
    (jsMapSet m k v).length = m.length := by
  induction m with
  | nil => simp [jsMapFind] at h
  | cons p m ih =>
      by_cases hp : p.1 = k
      · simp [jsMapSet, hp]
      · simp only [jsMapFind, hp, if_false] at h
        simp [jsMapSet, hp, ih h]

/-- After a cacheSet, the normalized key maps to the new entry, whose expiry
is now plus ttl. -/
theorem cacheSet_find (c : Cache) (maxEntries ttl now : Nat) (o tr : String) :
    jsMapFind (cacheSet c maxEntries ttl now o tr) (toLowerCase o)
      = some ⟨tr, now + ttl⟩ := by
  simp only [cacheSet]
  exact jsMapFind_set_self _ _ _

/-- A cacheGet of the freshly set key succeeds while the lookup time does not
exceed the stored expiry. -/
theorem cacheGet_cacheSet_self (c : Cache) (maxEntries ttl t0 t : Nat)
    (o tr : String) (h : t ≤ t0 + ttl) :
    cacheGet (cacheSet c maxEntries ttl t0 o tr) t o
      = (some tr, cacheSet c maxEntries ttl t0 o tr) := by
  simp [cacheGet, cacheSet_find, Nat.not_lt.mpr h]

/-- A cacheGet of the freshly set key strictly after the stored expiry misses
and deletes the entry. -/
theorem cacheGet_cacheSet_expired (c : Cache) (maxEntries ttl t0 t : Nat)
    (o tr : String) (h : t0 + ttl < t) :
    cacheGet (cacheSet c maxEntries ttl t0 o tr) t o
      = (none, jsMapDelete (cacheSet c maxEntries ttl t0 o tr) (toLowerCase o)) := by
  simp [cacheGet, cacheSet_find, h]

/-- One cacheSet keeps the cache within a positive capacity. -/
theorem cacheSet_length_le (c : Cache) (maxEntries ttl now : Nat) (o tr : String)
    (hpos : 0 < maxEntries) (hlen : c.length ≤ maxEntries) :
    (cacheSet c maxEntries ttl now o tr).length ≤ maxEntries := by
  match c with
  | [] =>
      have h2 := jsMapSet_length_le ([] : Cache) (toLowerCase o)
        ⟨tr, now + ttl⟩
      by_cases h : maxEntries ≤ (([] : Cache)).length <;>
        simp only [cacheSet, h, if_true, if_false, List.head?] <;>
        simp at * <;> omega
  | p :: rest =>
      by_cases h : maxEntries ≤ (p :: rest).length
      · simp only [cacheSet, h, if_true, List.head?]
        rw [jsMapDelete_cons_self]
        have h2 := jsMapSet_length_le (jsMapDelete rest p.1) (toLowerCase o)
          ⟨tr, now + ttl⟩
        have h4 := jsMapDelete_length_le rest p.1
        have h3 : rest.length + 1 ≤ maxEntries := by
          simpa using hlen
        omega
      · simp only [cacheSet, h, if_false]
        have h2 := jsMapSet_length_le (p :: rest) (toLowerCase o) ⟨tr, now + ttl⟩
        have h3 : (p :: rest).length < maxEntries := Nat.lt_of_not_le h
        omega

/-- Any sequence of cacheSet calls keeps the cache within a positive
capacity. -/
theorem applyPuts_length_le (maxEntries ttl : Nat) (hpos : 0 < maxEntries)
    (ops : List (Nat × String × String)) (c : Cache)
    (hlen : c.length ≤ maxEntries) :
    (applyPuts maxEntries ttl c ops).length ≤ maxEntries := by
  induction ops generalizing c with
  | nil => simpa [applyPuts] using hlen
  | cons op ops ih =>
      exact ih _ (cacheSet_length_le _ _ _ _ _ _ hpos hlen)

/-- A cacheSet of a fresh key into a full cache with distinct keys drops the
head entry and appends the new one at the end. -/
theorem cacheSet_at_capacity (c : Cache) (maxEntries ttl now : Nat)
    (o tr : String) (hfull : maxEntries ≤ c.length) (hpos : 0 < maxEntries)
    (hpw : c.Pairwise (fun a b => a.1 ≠ b.1))
    (hnew : jsMapFind c (toLowerCase o) = none) :
    cacheSet c maxEntries ttl now o tr
      = c.tail ++ [(toLowerCase o, ⟨tr, now + ttl⟩)] := by
  match c, hpw with
  | [], _ =>
      simp only [List.length_nil] at hfull
      omega
  | p :: rest, hpw =>
      have hrest : jsMapFind rest (toLowerCase o) = none := by
        rw [jsMapFind_eq_none_iff]
        intro q hq
        exact ((jsMapFind_eq_none_iff _ _).mp hnew) q (by simp [hq])
      have habs : ∀ q ∈ rest, q.1 ≠ p.1 := by
        intro q hq
        exact Ne.symm ((List.pairwise_cons.mp hpw).1 q hq)
      simp only [cacheSet, hfull, if_true, List.head?]
      rw [jsMapDelete_cons_self, jsMapDelete_of_absent rest p.1 habs,
        jsMapSet_of_absent rest _ _ hrest]
      rfl

/-- C3 counterexample: the claim says a get at any time at or after t0 plus
ttl returns absent, but an entry stored at time 0 with ttl 1000 is still
returned by a get at time 1000, the exact expiry instant. -/
theorem cacheGet_ttl_boundary_counterexample :
    (cacheGet (cacheSet [] 500 1000 0 "gato" "felino") 1000 "gato").1
      = some "felino"
    ∧ (cacheGet (cacheSet [] 500 1000 0 "gato" "felino") 1000 "gato").1
      ≠ none := by
  decide

/-- C3 (amended): for an entry stored by cacheSet at time t0 with the given
ttl, an immediately following get of the same key at time t returns the stored
value and leaves the cache unchanged when t0 le t le t0 plus ttl, and returns
absent when t is strictly greater than t0 plus ttl, deleting the entry from
the cache as a side effect. -/
theorem cacheGet_ttl_window (c : Cache) (maxEntries ttl t0 t : Nat)
    (o tr : String) (_h0 : t0 ≤ t) :
    (t ≤ t0 + ttl →
      cacheGet (cacheSet c maxEntries ttl t0 o tr) t o
        = (some tr, cacheSet c maxEntries ttl t0 o tr))
    ∧ (t0 + ttl < t →
      cacheGet (cacheSet c maxEntries ttl t0 o tr) t o
        = (none, jsMapDelete (cacheSet c maxEntries ttl t0 o tr)
            (toLowerCase o))) :=
  ⟨fun h => cacheGet_cacheSet_self c maxEntries ttl t0 t o tr h,
   fun h => cacheGet_cacheSet_expired c maxEntries ttl t0 t o tr h⟩

/-- C3 witness: the amended window theorem evaluated at concrete inputs, one
get inside the window and one strictly after it. -/
theorem cacheGet_ttl_window_witness :
    (cacheGet (cacheSet [] 500 1000 0 "gato" "felino") 500 "gato"
      = (some "felino", cacheSet [] 500 1000 0 "gato" "felino"))
    ∧ (cacheGet (cacheSet [] 500 1000 0 "gato" "felino") 1001 "gato"
      = (none, jsMapDelete (cacheSet [] 500 1000 0 "gato" "felino")
          (toLowerCase "gato"))) :=
  ⟨(cacheGet_ttl_window [] 500 1000 0 500 "gato" "felino" (by decide)).1
      (by decide),
   (cacheGet_ttl_window [] 500 1000 0 1001 "gato" "felino" (by decide)).2
      (by decide)⟩

/-- C5 counterexample: the cache does not trim keys, so a value stored under
Hello is found under HELLO but not under hello surrounded by spaces. -/
theorem cache_normalization_counterexample :
    (cacheGet (cacheSet [] 500 1000 0 "Hello" "ola") 0 "HELLO").1 = some "ola"
    ∧ (cacheGet (cacheSet [] 500 1000 0 "Hello" "ola") 0 "  hello  ").1
      = none := by
  decide

/-- C5 (amended): cacheGet and cacheSet normalize keys by case folding only,
so any two keys equal after lowercasing resolve to the same entry; trimming is
performed by the request handler, which resolves the trimmed keyword text
before the cache is consulted. -/
theorem cache_normalization (c : Cache) (maxEntries ttl now : Nat)
    (s t v : String) (h : toLowerCase s = toLowerCase t) :
    cacheGet c now s = cacheGet c now t
    ∧ cacheSet c maxEntries ttl now s v = cacheSet c maxEntries ttl now t v
    ∧ (∀ (translateApiKey : Option String)
        (provider : String → ProviderResult) (query : Params) (s2 : String),
        jsMapFind query "keywords" = some (QueryVal.str s2) → jsTrim s2 ≠ "" →
        (searchStep c translateApiKey maxEntries ttl provider now
            query).spanishKeywords = some (jsTrim s2)) := by
  refine ⟨?_, ?_, ?_⟩
  · simp [cacheGet, h]
  · simp [cacheSet, h]
  · intro translateApiKey provider query s2 hq hne
    simp [searchStep, hq, hne]

/-- C5 witness: the amended normalization theorem evaluated at Hello and
HELLO, plus the handler trimming a padded keyword before resolution. -/
theorem cache_normalization_witness :
    cacheGet ([] : Cache) 0 "Hello" = cacheGet [] 0 "HELLO"
    ∧ cacheSet [] 500 1000 0 "Hello" "ola" = cacheSet [] 500 1000 0 "HELLO" "ola"
    ∧ (searchStep [] none 500 1000 (fun _ => ProviderResult.failure) 0
        [("keywords", QueryVal.str " Perro ")]).spanishKeywords
      = some (jsTrim " Perro ") := by
  have h := cache_normalization [] 500 1000 0 "Hello" "HELLO" "ola" (by decide)
  exact ⟨h.1, h.2.1,
    h.2.2 none (fun _ => ProviderResult.failure)
      [("keywords", QueryVal.str " Perro ")] " Perro " (by decide) (by decide)⟩

/-- C6 counterexample: with capacity 2 and resident keys a then b, a put that
only overwrites the already resident key b still evicts the unrelated entry a,
although the claim says an overwrite evicts no other entry. -/
theorem cacheSet_overwrite_eviction_counterexample :
    jsMapFind (cacheSet (cacheSet [] 2 1000 0 "a" "x") 2 1000 0 "b" "y") "b"
      = some ⟨"y", 1000⟩
    ∧ (cacheGet (cacheSet (cacheSet [] 2 1000 0 "a" "x") 2 1000 0 "b" "y")
        1 "a").1 = some "x"
    ∧ (cacheGet (cacheSet (cacheSet (cacheSet [] 2 1000 0 "a" "x")
        2 1000 0 "b" "y") 2 1000 1 "b" "y2") 1 "a").1 = none := by
  decide

/-- C6 (amended): a put whose normalized key is already resident overwrites
that entry and refreshes its expiry to now plus ttl, and below capacity no
eviction happens for any key; but when the cache is at capacity the earliest
inserted entry is deleted on every put, whether or not the inserted key is
new. -/
theorem cacheSet_overwrite (c : Cache) (maxEntries ttl now : Nat)
    (o v : String) :
    (c.length < maxEntries →
      cacheSet c maxEntries ttl now o v
        = jsMapSet c (toLowerCase o) ⟨v, now + ttl⟩)
    ∧ jsMapFind (cacheSet c maxEntries ttl now o v) (toLowerCase o)
        = some ⟨v, now + ttl⟩
    ∧ (∀ e, jsMapFind c (toLowerCase o) = some e →
        (jsMapSet c (toLowerCase o) (⟨v, now + ttl⟩ : CacheEntry)).length
          = c.length)
    ∧ (∀ p rest, c = p :: rest → maxEntries ≤ c.length →
        cacheSet c maxEntries ttl now o v
          = jsMapSet (jsMapDelete c p.1) (toLowerCase o) ⟨v, now + ttl⟩) := by
  refine ⟨?_, cacheSet_find c maxEntries ttl now o v, ?_, ?_⟩
  · intro h
    simp [cacheSet, Nat.not_le.mpr h]
  · intro e he
    exact jsMapSet_length_of_found c (toLowerCase o) _ e he
  · intro p rest hc hfull
    subst hc
    simp only [cacheSet, hfull, if_true, List.head?]

/-- C6 witness: the amended overwrite theorem evaluated on a concrete cache,
once below capacity and once at capacity with an already resident key. -/
theorem cacheSet_overwrite_witness :
    cacheSet [("a", ⟨"x", 5⟩)] 2 1000 3 "A" "x2"
      = jsMapSet [("a", ⟨"x", 5⟩)] (toLowerCase "A") ⟨"x2", 1003⟩
    ∧ jsMapFind (cacheSet [("a", ⟨"x", 5⟩)] 2 1000 3 "A" "x2") (toLowerCase "A")
      = some ⟨"x2", 1003⟩
    ∧ (jsMapSet [("a", ⟨"x", 5⟩)] (toLowerCase "A")
        (⟨"x2", 1003⟩ : CacheEntry)).length = 1
    ∧ cacheSet [("a", ⟨"x", 5⟩), ("b", ⟨"y", 5⟩)] 2 1000 3 "b" "y2"
      = jsMapSet (jsMapDelete [("a", ⟨"x", 5⟩), ("b", ⟨"y", 5⟩)] "a")
          (toLowerCase "b") ⟨"y2", 1003⟩ := by
  have h1 := cacheSet_overwrite [("a", ⟨"x", 5⟩)] 2 1000 3 "A" "x2"
  have h2 := cacheSet_overwrite [("a", ⟨"x", 5⟩), ("b", ⟨"y", 5⟩)] 2 1000 3
    "b" "y2"
  exact ⟨h1.1 (by decide), h1.2.1, h1.2.2.1 ⟨"x", 5⟩ (by decide),
    h2.2.2.2 ("a", ⟨"x", 5⟩) [("b", ⟨"y", 5⟩)] rfl (by decide)⟩

/-- C4: with a positive capacity, any sequence of puts starting from the
empty cache keeps the entry count at most the capacity; and a put of a fresh
normalized key into a full cache with pairwise distinct keys evicts exactly
the earliest inserted resident entry: the result drops the head entry and
appends the new one, a later get of the evicted key misses, a get of each
remaining unexpired key still hits, and a get of the new key hits. -/
theorem cache_capacity_eviction (maxEntries ttl : Nat) (hpos : 0 < maxEntries) :
    (∀ ops : List (Nat × String × String),
      (applyPuts maxEntries ttl [] ops).length ≤ maxEntries)
    ∧ (∀ (c : Cache) (o v : String) (now t : Nat),
        maxEntries ≤ c.length →
        c.Pairwise (fun a b => a.1 ≠ b.1) →
        jsMapFind c (toLowerCase o) = none →
        (cacheSet c maxEntries ttl now o v
            = c.tail ++ [(toLowerCase o, ⟨v, now + ttl⟩)])
        ∧ (∀ p rest, c = p :: rest → toLowerCase p.1 = p.1 →
            (cacheGet (cacheSet c maxEntries ttl now o v) t p.1).1 = none)
        ∧ (∀ q, q ∈ c.tail → toLowerCase q.1 = q.1 → t ≤ q.2.expiresAt →
            (cacheGet (cacheSet c maxEntries ttl now o v) t q.1).1
              = some q.2.translated)
        ∧ (t ≤ now + ttl →
            (cacheGet (cacheSet c maxEntries ttl now o v) t o).1 = some v)) := by
  constructor
  · intro ops
    exact applyPuts_length_le maxEntries ttl hpos ops [] (by simp)
  · intro c o v now t hfull hpw hnew
    have hshape := cacheSet_at_capacity c maxEntries ttl now o v hfull hpos hpw hnew
    have hnewtail : jsMapFind c.tail (toLowerCase o) = none := by
      rw [jsMapFind_eq_none_iff]
      intro q hq
      exact ((jsMapFind_eq_none_iff _ _).mp hnew) q (List.tail_sublist c |>.mem hq)
    refine ⟨hshape, ?_, ?_, ?_⟩
    · intro p rest hc hlow
      subst hc
      have hnotail : jsMapFind rest p.1 = none := by
        rw [jsMapFind_eq_none_iff]
        intro q hq
        exact Ne.symm ((List.pairwise_cons.mp hpw).1 q hq)
      have hnotnew : toLowerCase o ≠ p.1 :=
        Ne.symm (((jsMapFind_eq_none_iff _ _).mp hnew) p (by simp))
      have hfind : jsMapFind (cacheSet (p :: rest) maxEntries ttl now o v) p.1
          = none := by
        rw [hshape, jsMapFind_append]
        simp only [List.tail_cons]
        rw [hnotail]
        simp [jsMapFind, hnotnew]
      simp [cacheGet, hlow, hfind]
    · intro q hq hlow hlive
      have hqfind : jsMapFind c.tail q.1 = some q.2 :=
        jsMapFind_of_mem c.tail q hq
          (hpw.sublist (List.tail_sublist c))
      have hfind : jsMapFind (cacheSet c maxEntries ttl now o v) q.1
          = some q.2 := by
        rw [hshape, jsMapFind_append, hqfind]
        rfl
      simp [cacheGet, hlow, hfind, Nat.not_lt.mpr hlive]
    · intro hlive
      have hfind : jsMapFind (cacheSet c maxEntries ttl now o v) (toLowerCase o)
          = some ⟨v, now + ttl⟩ := by
        rw [hshape, jsMapFind_append, hnewtail]
        simp [jsMapFind]
      simp [cacheGet, hfind, Nat.not_lt.mpr hlive]

/-- C4 witness: capacity 2 with entries a then b; inserting the fresh key c
evicts a, keeps b, and stores c; the put sequence bound is evaluated on three
puts. -/
theorem cache_capacity_eviction_witness :
    ((applyPuts 2 10 [] [(0, "a", "x"), (0, "b", "y"), (0, "c", "z")]).length
      ≤ 2)
    ∧ cacheSet [("a", ⟨"x", 10⟩), ("b", ⟨"y", 10⟩)] 2 10 1 "c" "z"
        = [("a", ⟨"x", 10⟩), ("b", ⟨"y", 10⟩)].tail
            ++ [(toLowerCase "c", ⟨"z", 1 + 10⟩)]
    ∧ (cacheGet (cacheSet [("a", ⟨"x", 10⟩), ("b", ⟨"y", 10⟩)] 2 10 1 "c" "z")
        5 "a").1 = none
    ∧ (cacheGet (cacheSet [("a", ⟨"x", 10⟩), ("b", ⟨"y", 10⟩)] 2 10 1 "c" "z")
        5 "b").1 = some "y"
    ∧ (cacheGet (cacheSet [("a", ⟨"x", 10⟩), ("b", ⟨"y", 10⟩)] 2 10 1 "c" "z")
        5 "c").1 = some "z" := by
  have h := cache_capacity_eviction 2 10 (by decide)
  have h2 := h.2 [("a", ⟨"x", 10⟩), ("b", ⟨"y", 10⟩)] "c" "z" 1 5 (by decide)
    (by decide) (by decide)
  exact ⟨h.1 [(0, "a", "x"), (0, "b", "y"), (0, "c", "z")], h2.1,
    h2.2.1 ("a", ⟨"x", 10⟩) [("b", ⟨"y", 10⟩)] rfl (by decide),
    h2.2.2.1 ("b", ⟨"y", 10⟩) (by decide) (by decide) (by decide),
    h2.2.2.2 (by decide)⟩

/-- C1: on a cache miss, resolve never fails and always falls back to the
source text: with no API key configured the outcome is the source text with
cacheHit false and attempted false; with a key configured and a failing
provider the outcome is the source text with cacheHit false and attempted
true; and the handler always proceeds to forwarding, relaying the status and
body returned by the forwarder. -/
theorem resolve_fallback (cache : Cache) (maxEntries ttl now : Nat)
    (provider : String → ProviderResult) (text : String)
    (hmiss : (cacheGet cache now text).1 = none) :
    ((resolve cache none maxEntries ttl provider now text).1
        = ⟨text, false, false⟩)
    ∧ (∀ k, provider text = ProviderResult.failure →
        (resolve cache (some k) maxEntries ttl provider now text).1
          = ⟨text, false, true⟩)
    ∧ (∀ (translateApiKey : Option String) (forward : Params → ForwardResult)
        (query : Params) (status : Nat) (body : String),
        forward (searchStep cache translateApiKey maxEntries ttl provider now
            query).forwardParams = ForwardResult.ok status body →
        (handleSearch cache translateApiKey maxEntries ttl provider forward now
            query).1.status = status
        ∧ (handleSearch cache translateApiKey maxEntries ttl provider forward
            now query).1.body = body) := by
  refine ⟨?_, ?_, ?_⟩
  · simp [resolve, hmiss, truthy, jsOr]
  · intro k hfail
    simp [resolve, hmiss, hfail, truthy, jsOr]
  · intro translateApiKey forward query status body hfw
    simp only [handleSearch]
    rw [hfw]
    rcases (searchStep cache translateApiKey maxEntries ttl provider now
        query).outcome with _ | o <;>
      rcases (searchStep cache translateApiKey maxEntries ttl provider now
        query).spanishKeywords with _ | sp <;> simp

/-- C1 witness: the fallback theorem evaluated on the empty cache with the
keyword perro, a constantly failing provider and a forwarder answering 200. -/
theorem resolve_fallback_witness :
    ((resolve [] none 500 1000 (fun _ => ProviderResult.failure) 0 "perro").1
        = ⟨"perro", false, false⟩)
    ∧ ((resolve [] (some "key") 500 1000 (fun _ => ProviderResult.failure) 0
        "perro").1 = ⟨"perro", false, true⟩)
    ∧ (handleSearch [] none 500 1000 (fun _ => ProviderResult.failure)
        (fun _ => ForwardResult.ok 200 "body") 0
        [("keywords", QueryVal.str "perro")]).1.status = 200 := by
  have h := resolve_fallback [] 500 1000 0 (fun _ => ProviderResult.failure)
    "perro" (by decide)
  exact ⟨h.1, h.2.1 "key" rfl,
    (h.2.2 none (fun _ => ForwardResult.ok 200 "body")
      [("keywords", QueryVal.str "perro")] 200 "body" rfl).1⟩

/-- C2 counterexample: a live cache entry whose stored value is the empty
string is falsy in JS, so resolve treats it as a miss: it reports cacheHit
false, invokes the provider and returns the provider result rather than the
cached value, contrary to the claim. -/
theorem resolve_cache_hit_counterexample :
    (cacheGet [("x", ⟨"", 100⟩)] 0 "x").1 = some ""
    ∧ (resolve [("x", ⟨"", 100⟩)] (some "k") 500 1000
        (fun _ => ProviderResult.success "t") 0 "x").1
      = ⟨"t", false, true⟩ := by
  decide

/-- C2 (amended): for every live cache entry whose stored value is not the
empty string, resolve returns the cached value with cacheHit true and
attempted false, leaves the cache unchanged, and never invokes the provider:
the result does not depend on the provider function at all. -/
theorem resolve_cache_hit (cache : Cache) (maxEntries ttl now : Nat)
    (translateApiKey : Option String) (provider : String → ProviderResult)
    (x v : String) (hhit : (cacheGet cache now x).1 = some v) (hne : v ≠ "") :
    (resolve cache translateApiKey maxEntries ttl provider now x).1
      = ⟨v, true, false⟩
    ∧ (resolve cache translateApiKey maxEntries ttl provider now x).2
      = (cacheGet cache now x).2
    ∧ (∀ provider2 : String → ProviderResult,
        resolve cache translateApiKey maxEntries ttl provider now x
          = resolve cache translateApiKey maxEntries ttl provider2 now x) := by
  refine ⟨?_, ?_, ?_⟩ <;>
    simp [resolve, hhit, truthy, jsOr, hne]

/-- C2 witness: the amended cache hit theorem evaluated on a cache holding a
live non empty translation for x, with a provider that would answer
differently. -/
theorem resolve_cache_hit_witness :
    ((resolve [("x", ⟨"v", 100⟩)] (some "k") 500 1000
        (fun _ => ProviderResult.success "t") 0 "x").1 = ⟨"v", true, false⟩)
    ∧ ((resolve [("x", ⟨"v", 100⟩)] (some "k") 500 1000
        (fun _ => ProviderResult.success "t") 0 "x").2
      = (cacheGet [("x", ⟨"v", 100⟩)] 0 "x").2)
    ∧ (resolve [("x", ⟨"v", 100⟩)] (some "k") 500 1000
        (fun _ => ProviderResult.success "t") 0 "x"
      = resolve [("x", ⟨"v", 100⟩)] (some "k") 500 1000
        (fun _ => ProviderResult.failure) 0 "x") := by
  have h := resolve_cache_hit [("x", ⟨"v", 100⟩)] 500 1000 0 (some "k")
    (fun _ => ProviderResult.success "t") "x" "v" (by decide) (by decide)
  exact ⟨h.1, h.2.1, h.2.2 (fun _ => ProviderResult.failure)⟩

/-- C7: on a cache miss with a configured key and a successful provider call,
resolve stores the provider result in the cache under the source text, whose
lookup now succeeds, and returns the provider result with cacheHit false and
attempted true; in the handler the forwarded parameters carry the translated
text under the keywords field. -/
theorem resolve_miss_success (cache : Cache) (maxEntries ttl now : Nat)
    (k text t : String) (provider : String → ProviderResult)
    (hmiss : (cacheGet cache now text).1 = none)
    (hsucc : provider text = ProviderResult.success t) :
    ((resolve cache (some k) maxEntries ttl provider now text).1
        = ⟨t, false, true⟩)
    ∧ ((resolve cache (some k) maxEntries ttl provider now text).2
        = cacheSet (cacheGet cache now text).2 maxEntries ttl now text t)
    ∧ ((cacheGet (resolve cache (some k) maxEntries ttl provider now text).2
        now text).1 = some t)
    ∧ (∀ (query : Params) (s : String),
        jsMapFind query "keywords" = some (QueryVal.str s) → jsTrim s = text →
        text ≠ "" →
        jsMapFind (searchStep cache (some k) maxEntries ttl provider now
            query).forwardParams "keywords" = some (QueryVal.str t)) := by
  have hout : (resolve cache (some k) maxEntries ttl provider now text).1
      = ⟨t, false, true⟩ := by
    simp [resolve, hmiss, hsucc, truthy, jsOr]
  have hcache : (resolve cache (some k) maxEntries ttl provider now text).2
      = cacheSet (cacheGet cache now text).2 maxEntries ttl now text t := by
    simp [resolve, hmiss, hsucc, truthy, jsOr]
  refine ⟨hout, hcache, ?_, ?_⟩
  · rw [hcache,
      cacheGet_cacheSet_self (cacheGet cache now text).2 maxEntries ttl now now
        text t (Nat.le_add_right now ttl)]
  · intro query s hq htrim hne
    simp only [searchStep, hq]
    rw [htrim, if_neg hne, jsMapFind_set_self]
    rw [hout]

/-- C7 witness: the miss and success theorem evaluated on the empty cache with
the keyword perro translated to cachorro, including the forwarded parameter
substitution for a padded query value. -/
theorem resolve_miss_success_witness :
    ((resolve [] (some "key") 500 1000 (fun _ => ProviderResult.success
        "cachorro") 0 "perro").1 = ⟨"cachorro", false, true⟩)
    ∧ ((cacheGet (resolve [] (some "key") 500 1000
        (fun _ => ProviderResult.success "cachorro") 0 "perro").2
        0 "perro").1 = some "cachorro")
    ∧ jsMapFind (searchStep [] (some "key") 500 1000
        (fun _ => ProviderResult.success "cachorro") 0
        [("keywords", QueryVal.str " perro ")]).forwardParams "keywords"
      = some (QueryVal.str "cachorro") := by
  have h := resolve_miss_success [] 500 1000 0 "key" "perro" "cachorro"
    (fun _ => ProviderResult.success "cachorro") (by decide) rfl
  exact ⟨h.1, h.2.2.1,
    h.2.2.2 [("keywords", QueryVal.str " perro ")] " perro " (by decide)
      (by decide) (by decide)⟩

/-- C8: when the keywords parameter is absent, blank after trimming, or not a
string, the handler deletes the keywords field from the forwarded parameters
so that it is gone entirely, performs no orchestration (the step does not
depend on the API key or the provider and leaves the cache untouched), and
still forwards the request, relaying a successful backend reply. -/
theorem handler_no_usable_keywords (cache : Cache)
    (translateApiKey : Option String) (maxEntries ttl now : Nat)
    (provider : String → ProviderResult) (query : Params)
    (h : jsMapFind query "keywords" = none
      ∨ (∃ s, jsMapFind query "keywords" = some (QueryVal.str s)
          ∧ jsTrim s = "")
      ∨ jsMapFind query "keywords" = some QueryVal.other) :
    (searchStep cache translateApiKey maxEntries ttl provider now query
      = ⟨jsMapDelete query "keywords", none, none, cache⟩)
    ∧ jsMapFind (jsMapDelete query "keywords") "keywords" = none
    ∧ (∀ (translateApiKey2 : Option String)
        (provider2 : String → ProviderResult),
        searchStep cache translateApiKey maxEntries ttl provider now query
          = searchStep cache translateApiKey2 maxEntries ttl provider2 now
              query)
    ∧ (∀ (forward : Params → ForwardResult) (status : Nat) (body : String),
        forward (jsMapDelete query "keywords") = ForwardResult.ok status body →
        handleSearch cache translateApiKey maxEntries ttl provider forward now
            query
          = (⟨status, body, []⟩, cache)) := by
  have hstep : ∀ (tk : Option String) (prov : String → ProviderResult),
      searchStep cache tk maxEntries ttl prov now query
        = ⟨jsMapDelete query "keywords", none, none, cache⟩ := by
    intro tk prov
    rcases h with h | ⟨s, hs, htr⟩ | h
    · simp [searchStep, h]
    · simp [searchStep, hs, htr]
    · simp [searchStep, h]
  refine ⟨hstep _ _, jsMapFind_delete_self query "keywords",
    fun tk2 p2 => (hstep _ _).trans (hstep _ _).symm, ?_⟩
  intro forward status body hfw
  simp [handleSearch, hstep translateApiKey provider, hfw]

/-- C8 witness: a query without a keywords field is forwarded unchanged, no
orchestration runs, and the backend reply is relayed. -/
theorem handler_no_usable_keywords_witness :
    (searchStep [] (some "key") 500 1000
        (fun _ => ProviderResult.success "t") 0 [("page", QueryVal.str "2")]
      = ⟨jsMapDelete [("page", QueryVal.str "2")] "keywords", none, none, []⟩)
    ∧ jsMapFind (jsMapDelete [("page", QueryVal.str "2")] "keywords")
        "keywords" = none
    ∧ handleSearch [] (some "key") 500 1000
        (fun _ => ProviderResult.success "t")
        (fun _ => ForwardResult.ok 200 "body") 0 [("page", QueryVal.str "2")]
      = (⟨200, "body", []⟩, []) := by
  have h := handler_no_usable_keywords [] (some "key") 500 1000 0
    (fun _ => ProviderResult.success "t") [("page", QueryVal.str "2")]
    (Or.inl (by decide))
  exact ⟨h.1, h.2.1,
    h.2.2.2 (fun _ => ForwardResult.ok 200 "body") 200 "body" rfl⟩

/-- C9: the forwarded parameter set agrees with the incoming query on every
field other than keywords, and its keywords field is either absent (no usable
keywords) or carries exactly the resolved text of the produced outcome. -/
theorem forwarded_params_frame (cache : Cache)
    (translateApiKey : Option String) (maxEntries ttl now : Nat)
    (provider : String → ProviderResult) (query : Params) (k : String)
    (hk : k ≠ "keywords") :
    jsMapFind (searchStep cache translateApiKey maxEntries ttl provider now
        query).forwardParams k = jsMapFind query k
    ∧ (jsMapFind (searchStep cache translateApiKey maxEntries ttl provider now
          query).forwardParams "keywords" = none
      ∨ ∃ o, (searchStep cache translateApiKey maxEntries ttl provider now
            query).outcome = some o
          ∧ jsMapFind (searchStep cache translateApiKey maxEntries ttl
              provider now query).forwardParams "keywords"
            = some (QueryVal.str o.translatedText)) := by
  cases hq : jsMapFind query "keywords" with
  | none =>
      rw [show searchStep cache translateApiKey maxEntries ttl provider now
            query = ⟨jsMapDelete query "keywords", none, none, cache⟩ by
          simp [searchStep, hq]]
      exact ⟨jsMapFind_delete_other query "keywords" k hk,
        Or.inl (jsMapFind_delete_self query "keywords")⟩
  | some val =>
      cases val with
      | str s =>
          by_cases htr : jsTrim s = ""
          · rw [show searchStep cache translateApiKey maxEntries ttl provider
                  now query = ⟨jsMapDelete query "keywords", none, none,
                  cache⟩ by simp [searchStep, hq, htr]]
            exact ⟨jsMapFind_delete_other query "keywords" k hk,
              Or.inl (jsMapFind_delete_self query "keywords")⟩
          · rw [show searchStep cache translateApiKey maxEntries ttl provider
                  now query
                = ⟨jsMapSet query "keywords" (QueryVal.str (resolve cache
                    translateApiKey maxEntries ttl provider now
                    (jsTrim s)).1.translatedText),
                  some (resolve cache translateApiKey maxEntries ttl provider
                    now (jsTrim s)).1,
                  some (jsTrim s),
                  (resolve cache translateApiKey maxEntries ttl provider now
                    (jsTrim s)).2⟩ by simp [searchStep, hq, htr]]
            exact ⟨jsMapFind_set_other query "keywords" k _ hk,
              Or.inr ⟨_, rfl, jsMapFind_set_self query "keywords" _⟩⟩
      | other =>
          rw [show searchStep cache translateApiKey maxEntries ttl provider now
                query = ⟨jsMapDelete query "keywords", none, none, cache⟩ by
              simp [searchStep, hq]]
          exact ⟨jsMapFind_delete_other query "keywords" k hk,
            Or.inl (jsMapFind_delete_self query "keywords")⟩

/-- C9 witness: the frame theorem evaluated on a query with keywords and a
page field: page passes through unchanged and keywords carries the resolved
text. -/
theorem forwarded_params_frame_witness :
    jsMapFind (searchStep [] (some "key") 500 1000
        (fun _ => ProviderResult.success "cachorro") 0
        [("keywords", QueryVal.str "perro"), ("page", QueryVal.str "2")]
        ).forwardParams "page"
      = jsMapFind [("keywords", QueryVal.str "perro"),
          ("page", QueryVal.str "2")] "page"
    ∧ (jsMapFind (searchStep [] (some "key") 500 1000
          (fun _ => ProviderResult.success "cachorro") 0
          [("keywords", QueryVal.str "perro"), ("page", QueryVal.str "2")]
          ).forwardParams "keywords" = none
      ∨ ∃ o, (searchStep [] (some "key") 500 1000
            (fun _ => ProviderResult.success "cachorro") 0
            [("keywords", QueryVal.str "perro"), ("page", QueryVal.str "2")]
            ).outcome = some o
          ∧ jsMapFind (searchStep [] (some "key") 500 1000
              (fun _ => ProviderResult.success "cachorro") 0
              [("keywords", QueryVal.str "perro"),
                ("page", QueryVal.str "2")]).forwardParams "keywords"
            = some (QueryVal.str o.translatedText)) :=
  forwarded_params_frame [] (some "key") 500 1000 0
    (fun _ => ProviderResult.success "cachorro")
    [("keywords", QueryVal.str "perro"), ("page", QueryVal.str "2")] "page"
    (by decide)

/-- C10: the four diagnostic headers are present exactly when the request
carried usable keywords and forwarding succeeded: without usable keywords the
response carries no headers, a forwarding failure carries no headers, and a
successful forward of a usable request carries exactly the four headers
derived from the outcome. -/
theorem diagnostic_headers_exact (cache : Cache)
    (translateApiKey : Option String) (maxEntries ttl now : Nat)
    (provider : String → ProviderResult) (forward : Params → ForwardResult)
    (query : Params) :
    (hasUsableKeywords query = false →
      (handleSearch cache translateApiKey maxEntries ttl provider forward now
          query).1.headers = [])
    ∧ (forward (searchStep cache translateApiKey maxEntries ttl provider now
          query).forwardParams = ForwardResult.err →
      (handleSearch cache translateApiKey maxEntries ttl provider forward now
          query).1.headers = [])
    ∧ (∀ (s : String) (status : Nat) (body : String),
        jsMapFind query "keywords" = some (QueryVal.str s) → jsTrim s ≠ "" →
        forward (searchStep cache translateApiKey maxEntries ttl provider now
            query).forwardParams = ForwardResult.ok status body →
        (handleSearch cache translateApiKey maxEntries ttl provider forward
            now query).1.headers
          = diagnosticHeaders (resolve cache translateApiKey maxEntries ttl
              provider now (jsTrim s)).1 (jsTrim s)) := by
  refine ⟨?_, ?_, ?_⟩
  · intro husable
    have hstep : (searchStep cache translateApiKey maxEntries ttl provider now
        query).outcome = none := by
      cases hq : jsMapFind query "keywords" with
      | none => simp [searchStep, hq]
      | some val =>
          cases val with
          | str s =>
              have htr : jsTrim s = "" := by
                simpa [hasUsableKeywords, hq] using husable
              simp [searchStep, hq, htr]
          | other => simp [searchStep, hq]
    simp only [handleSearch]
    cases hfw : forward (searchStep cache translateApiKey maxEntries ttl
        provider now query).forwardParams with
    | ok status body => simp [hstep]
    | err => simp
  · intro hfw
    simp [handleSearch, hfw]
  · intro s status body hq htr hfw
    have hstep : searchStep cache translateApiKey maxEntries ttl provider now
        query
        = ⟨jsMapSet query "keywords" (QueryVal.str (resolve cache
            translateApiKey maxEntries ttl provider now
            (jsTrim s)).1.translatedText),
          some (resolve cache translateApiKey maxEntries ttl provider now
            (jsTrim s)).1,
          some (jsTrim s),
          (resolve cache translateApiKey maxEntries ttl provider now
            (jsTrim s)).2⟩ := by
      simp [searchStep, hq, htr]
    rw [hstep] at hfw
    simp [handleSearch, hstep, hfw]

/-- C10 witness: the header theorem evaluated twice, once on a request without
keywords (no headers) and once on a usable request with a successful forward
(the four headers). -/
theorem diagnostic_headers_exact_witness :
    ((handleSearch [] (some "key") 500 1000
        (fun _ => ProviderResult.success "cachorro")
        (fun _ => ForwardResult.ok 200 "body") 0
        [("page", QueryVal.str "2")]).1.headers = [])
    ∧ ((handleSearch [] (some "key") 500 1000
        (fun _ => ProviderResult.success "cachorro")
        (fun _ => ForwardResult.err) 0
        [("keywords", QueryVal.str "perro")]).1.headers = [])
    ∧ ((handleSearch [] (some "key") 500 1000
        (fun _ => ProviderResult.success "cachorro")
        (fun _ => ForwardResult.ok 200 "body") 0
        [("keywords", QueryVal.str "perro")]).1.headers
      = diagnosticHeaders (resolve [] (some "key") 500 1000
          (fun _ => ProviderResult.success "cachorro") 0
          (jsTrim "perro")).1 (jsTrim "perro")) := by
  have h1 := diagnostic_headers_exact [] (some "key") 500 1000 0
    (fun _ => ProviderResult.success "cachorro")
    (fun _ => ForwardResult.ok 200 "body") [("page", QueryVal.str "2")]
  have h2 := diagnostic_headers_exact [] (some "key") 500 1000 0
    (fun _ => ProviderResult.success "cachorro")
    (fun _ => ForwardResult.err) [("keywords", QueryVal.str "perro")]
  have h3 := diagnostic_headers_exact [] (some "key") 500 1000 0
    (fun _ => ProviderResult.success "cachorro")
    (fun _ => ForwardResult.ok 200 "body") [("keywords", QueryVal.str "perro")]
  exact ⟨h1.1 (by decide), h2.2.1 rfl,
    h3.2.2 "perro" 200 "body" (by decide) (by decide) rfl⟩

end SearchProxy
